import Mathlib

/-!
Verification of the compiledb-rs build-log parser (src/parser.rs, src/lib.rs).

The parser is embedded shallowly:

* `Path` models `std::path::PathBuf` as its list of components (the root
  directory is the component "/", mirroring `Component::RootDir`).
* The `regex` crate is an external library; a compiled regex is modelled by
  the structure `RE` carrying the two operations the parser uses
  (`is_match` and first-capture-group extraction), and regex compilation by
  an oracle `rc : String → Option RE` (`none` = pattern rejected).
  The six regexes built from fixed literals in `Parser::new`
  (`cd_regex`, `sh_regex`, `nested_cmd_regex`, `make_enter_dir`,
  `make_leave_dir`, `make_cmd_dir`, `checking_make`) are implemented
  directly as executable functions below, following the semantics of the
  literal patterns in the source.
* Subprocess execution for back-tick substitution is an oracle
  `exec : String → Option String` (`none` models a spawn failure or a
  non-zero exit status, `some out` a successful run with stdout `out`,
  matching the `Ok(output) if output.status.success()` guard).
  The `while` loop of `process_nested_commands` has no termination
  guarantee in the source, so its model takes a fuel parameter; all
  statements proved below are insensitive to the fuel in the cases they
  cover.
* The filesystem existence test and `which::which` are oracles
  `fsExists : Path → Bool` and `which : String → Option String`.
-/

namespace CompileDb

/-- Characters written via code points so that no quote or backslash
literal appears in the file. -/
def backtick : Char := Char.ofNat 96

def squote : Char := Char.ofNat 39

def dquote : Char := Char.ofNat 34

def bslash : Char := Char.ofNat 92

/-! ### String helpers (models of the Rust `str` operations used) -/

/-- Model of `str::trim` on the character list. -/
def trimL (l : List Char) : List Char :=
  ((l.dropWhile Char.isWhitespace).reverse.dropWhile Char.isWhitespace).reverse

/-- Model of `str::trim`. -/
def trimS (s : String) : String := ⟨trimL s.data⟩

/-- Accumulator for `splitWsL`; `acc` holds the current word reversed. -/
def splitWsAux : List Char → List Char → List (List Char)
  | [], acc => if acc = [] then [] else [acc.reverse]
  | c :: rest, acc =>
    if c.isWhitespace then
      if acc = [] then splitWsAux rest [] else acc.reverse :: splitWsAux rest []
    else splitWsAux rest (c :: acc)

/-- Model of `str::split_whitespace`: whitespace-separated words, empties
skipped. -/
def splitWsL (l : List Char) : List (List Char) := splitWsAux l []

def splitWsS (s : String) : List String := (splitWsL s.data).map (fun l => ⟨l⟩)

/-- First index at which `pat` occurs as a contiguous sublist of `l`
(leftmost match of a literal pattern). -/
def findSub (l pat : List Char) : Option Nat :=
  match l with
  | [] => if pat = [] then some 0 else none
  | _ :: rest =>
    if pat.isPrefixOf l then some 0 else (findSub rest pat).map (fun n => n + 1)

/-- Whether `pat` occurs as a contiguous sublist of `l`. -/
def containsSub (l pat : List Char) : Bool := (findSub l pat).isSome

/-- Fuel-indexed worker for `replaceAllL`; the fuel only serves to make
the recursion structural and is set to the text length, which the scan
never exceeds since a non-empty match always consumes at least one
character. -/
def replaceAllGo (pat rep : List Char) : Nat → List Char → List Char
  | 0, l => l
  | _ + 1, [] => []
  | n + 1, c :: rest =>
    if pat ≠ [] ∧ pat.isPrefixOf (c :: rest) then
      rep ++ replaceAllGo pat rep n ((c :: rest).drop pat.length)
    else
      c :: replaceAllGo pat rep n rest

/-- Model of `String::replace(pat, rep)`: replace every non-overlapping
occurrence, left to right, without rescanning the replacement.  (For the
empty pattern Rust would insert `rep` at every position; both uses in the
source have a non-empty pattern, and this model is the identity there.) -/
def replaceAllL (pat rep l : List Char) : List Char := replaceAllGo pat rep l.length l

/-! ### Paths -/

/-- A `PathBuf` as its component list; an absolute path starts with the
root component "/". -/
abbrev Path := List String

/-- Model of `Path::is_absolute` applied to a path built from a string
(on Unix: the string starts with a slash). -/
def isAbsStr (s : String) : Bool := s.data.head? = some '/'

/-- Split a character list at every slash (accumulator holds the current
piece reversed). -/
def splitSlashAux : List Char → List Char → List (List Char)
  | [], acc => [acc.reverse]
  | c :: rest, acc =>
    if c = '/' then acc.reverse :: splitSlashAux rest [] else splitSlashAux rest (c :: acc)

/-- Model of `PathBuf::from(string)` followed by `Path::components()`:
split on slashes, drop empty components, drop `.` components except a
leading one of a relative path, keep a root component for an absolute
path. -/
def parsePath (s : String) : Path :=
  let parts := ((splitSlashAux s.data []).map (fun l => (⟨l⟩ : String))).filter (fun c => c ≠ "")
  if isAbsStr s then "/" :: parts.filter (fun c => c ≠ ".")
  else
    match parts with
    | [] => []
    | p :: rest => p :: rest.filter (fun c => c ≠ ".")

/-- Model of rendering a component list back to a string
(`Path::to_string_lossy`). -/
def render (p : Path) : String :=
  match p with
  | [] => ""
  | "/" :: rest => "/" ++ String.intercalate "/" rest
  | l => String.intercalate "/" l

/-- Model of `Path::join`: an absolute right operand replaces the left,
a relative one is appended. -/
def joinPath (a b : Path) : Path := if b.head? = some "/" then b else a ++ b

/-- Model of `Path::strip_prefix`: remove `wd` as an exact leading run of
components of `fp`. -/
def stripPre (fp wd : Path) : Option Path :=
  if List.isPrefixOf wd fp then some (fp.drop wd.length) else none

/-! ### The fixed regexes of `Parser::new`, as executable functions -/

/-- `cd_regex = ^cd\s+(.*)$`: capture group 1. -/
def cdCap (s : String) : Option String :=
  match s.data with
  | 'c' :: 'd' :: c :: rest =>
    if c.isWhitespace then some ⟨(c :: rest).dropWhile Char.isWhitespace⟩ else none
  | _ => none

/-- `checking_make = ^\s?checking whether .*(yes|no)$` as a boolean. -/
def checkingIsMatch (s : String) : Bool :=
  let body : List Char :=
    match s.data with
    | [] => []
    | c :: rest => if c.isWhitespace then rest else s.data
  ("checking whether ".data.isPrefixOf body) &&
    (List.isSuffixOf "yes".data (body.drop 17) || List.isSuffixOf "no".data (body.drop 17))

def isQuoteChar (c : Char) : Bool := c = squote || c = dquote || c = backtick

/-- The tail of the `make_enter_dir` pattern after the literal
`: Entering directory `: greedy `.*` up to a quote character, then the
capture, then a final quote character at the end of the line.  The
capture is the text between the last quote before the final character and
that final character. -/
def quoteCapture (t : List Char) : Option String :=
  match t.reverse with
  | [] => none
  | c :: rt =>
    if isQuoteChar c then
      if rt.dropWhile (fun d => !isQuoteChar d) = [] then none
      else some ⟨(rt.takeWhile (fun d => !isQuoteChar d)).reverse⟩
    else none

/-- `make_enter_dir`: the lazy prelude reduces to: the earliest possible
end of a `mingw32-make|gmake|make` occurrence is 4 past the first
occurrence of `make` (every alternative ends in `make`), and
`: Entering directory ` must occur at or after that end; the quoted
capture is then taken from the earliest such occurrence onward. -/
def enterCap (s : String) : Option String :=
  match findSub s.data "make".data with
  | none => none
  | some m =>
    let afterMake := s.data.drop (m + 4)
    match findSub afterMake ": Entering directory ".data with
    | none => none
    | some q => quoteCapture (afterMake.drop (q + 21))

/-- Like `quoteCapture` but for `make_leave_dir`, whose quote characters
are single quotes only; only the boolean outcome is used by the source. -/
def leaveTail (t : List Char) : Bool :=
  match t.reverse with
  | [] => false
  | c :: rt => c = squote && rt.contains squote

/-- `make_leave_dir` as a boolean (the source only tests `is_some`). -/
def leaveIsMatch (s : String) : Bool :=
  match findSub s.data "make".data with
  | none => false
  | some m =>
    let afterMake := s.data.drop (m + 4)
    match findSub afterMake ": Leaving directory ".data with
    | none => false
    | some q => leaveTail (afterMake.drop (q + 20))

/-- Is `-C` followed by at least one whitespace character at the head of
the list? -/
def dashCHere : List Char → Bool
  | '-' :: 'C' :: c :: _ => c.isWhitespace
  | _ => false

/-- First occurrence of `-C` followed by at least one whitespace
character (the `-C\s+` part of `make_cmd_dir`). -/
def findDashC : List Char → Option Nat
  | [] => none
  | c :: rest =>
    if dashCHere (c :: rest) then some 0 else (findDashC rest).map (fun n => n + 1)

/-- `make_cmd_dir = ^\s*(?:mingw32-make|gmake|make).*?-C\s+(.*?)(\s|$)`:
after optional leading whitespace the line must start with one of the
three tool names; the capture is the word after the first `-C` that is
followed by whitespace. -/
def makeCCap (s : String) : Option String :=
  let l := s.data.dropWhile Char.isWhitespace
  let altLen : Option Nat :=
    if "mingw32-make".data.isPrefixOf l then some 12
    else if "gmake".data.isPrefixOf l then some 5
    else if "make".data.isPrefixOf l then some 4
    else none
  match altLen with
  | none => none
  | some k =>
    let rest := l.drop k
    match findDashC rest with
    | none => none
    | some i =>
      let after := (rest.drop (i + 2)).dropWhile Char.isWhitespace
      some ⟨after.takeWhile (fun c => !c.isWhitespace)⟩

/-- `sh_regex = \s*(;|&&|\|\|)\s*` used with `Regex::split`: cut at every
`;`, `&&` or `||`; the whitespace the regex would absorb around each
separator is removed instead by the `trim` in `split_commands`, giving
the same pieces. -/
def splitSep : List Char → List (List Char)
  | [] => [[]]
  | ';' :: rest => [] :: splitSep rest
  | '&' :: '&' :: rest => [] :: splitSep rest
  | '|' :: '|' :: rest => [] :: splitSep rest
  | c :: rest =>
    match splitSep rest with
    | [] => [[c]]
    | h :: t => (c :: h) :: t

/-- `Parser::split_commands`: split on the shell operators, trim each
piece, drop empties. -/
def splitCommands (s : String) : List String :=
  (((splitSep s.data).map trimL).filter (fun l => l ≠ [])).map (fun l => (⟨l⟩ : String))

/-- Leftmost match of `nested_cmd_regex` = `` `([^`]+)` ``, returned as
(whole match, capture group 1). -/
def findNested : List Char → Option (List Char × List Char)
  | [] => none
  | c :: rest =>
    if c = backtick then
      let grp := rest.takeWhile (fun d => d ≠ backtick)
      match rest.dropWhile (fun d => d ≠ backtick) with
      | [] => none
      | _ :: _ =>
        if grp = [] then findNested rest
        else some (backtick :: grp ++ [backtick], grp)
    else findNested rest

def findNestedS (s : String) : Option (String × String) :=
  (findNested s.data).map (fun p => (⟨p.1⟩, ⟨p.2⟩))

/-! ### Data model (src/lib.rs) -/

/-- `CompileCommand` from src/lib.rs. -/
structure CompileCommand where
  directory : String
  file : String
  command : Option String
  arguments : Option (List String)
  output : Option String
deriving Repr, DecidableEq

/-- The fields of `Config` (src/lib.rs) consumed by the parser.
`build_log`, `output_file`, `no_build` and `verbose` are only read by the
CLI layer and the make wrapper, so they are omitted.  The two regex
patterns stay strings, compiled through the oracle in `Parser.new`. -/
structure Config where
  build_dir : Path
  exclude_patterns : List String
  no_strict : Bool
  macros : List String
  command_style : Bool
  full_path : Bool
  regex_compile : String
  regex_file : String

/-- The error enum from src/lib.rs (payloads reduced to the pattern
string for `InvalidCommand`; the other variants are unused here). -/
inductive CompileDbError where
  | Io : CompileDbError
  | Json : CompileDbError
  | InvalidCommand : String → CompileDbError
  | MakeError : String → CompileDbError
deriving Repr, DecidableEq

/-- A compiled regex, restricted to the two operations the parser calls:
`is_match`, and `captures` followed by `get(1)` (the first capture
group, `none` when the regex does not match the string). -/
structure RE where
  isMatch : String → Bool
  cap1 : String → Option String

/-- `Parser` state: the user-configurable regexes are stored as the
operations actually used on them (`compile_regex` only via `is_match`,
`file_regex` only via group-1 capture, the optional exclude regex only
via `is_match`); the fixed regexes are the global functions above. -/
structure Parser where
  compile_is_match : String → Bool
  file_cap : String → Option String
  exclude_is_match : Option (String → Bool)
  dir_stack : List Path
  working_dir : Path

/-- `Parser::new`.  `rc` is the regex-compilation oracle and `cwd` the
value `std::env::current_dir()` would return (its own I/O failure path is
not modelled).  Mirrors the source: compile `regex_compile`, then
`regex_file`, then — only when the exclusion list is non-empty — its
FIRST element; initialise `working_dir` from `build_dir` unless that is
the empty path, and the directory stack as the single-element stack
holding `working_dir`. -/
def Parser.new (rc : String → Option RE) (cwd : Path) (config : Config) :
    Except CompileDbError Parser :=
  match rc config.regex_compile with
  | none => .error (.InvalidCommand config.regex_compile)
  | some cre =>
    match rc config.regex_file with
    | none => .error (.InvalidCommand config.regex_file)
    | some fre =>
      let exRes : Except CompileDbError (Option (String → Bool)) :=
        match config.exclude_patterns with
        | [] => .ok none
        | p :: _ =>
          match rc p with
          | none => .error (.InvalidCommand p)
          | some ere => .ok (some ere.isMatch)
      match exRes with
      | .error e => .error e
      | .ok ex =>
        let wd := if config.build_dir ≠ [] then config.build_dir else cwd
        .ok { compile_is_match := cre.isMatch, file_cap := fre.cap1,
              exclude_is_match := ex, dir_stack := [wd], working_dir := wd }

/-! ### Parser::update_working_dir -/

/-- `Parser::update_working_dir`; `some p` = the source returned `true`
(line consumed) with new state `p`, `none` = it returned `false`.
Branch order as in the source: enter, then leave, then `make -C`.  In the
leave branch nothing is done — and crucially `false` is returned — when
the stack is already empty. -/
def updateWorkingDir (p : Parser) (line : String) : Option Parser :=
  match enterCap line with
  | some dir =>
    some { p with dir_stack := parsePath dir :: p.dir_stack, working_dir := parsePath dir }
  | none =>
    if leaveIsMatch line then
      match p.dir_stack with
      | [] => none
      | _ :: rest =>
        some { p with dir_stack := rest,
                      working_dir := match rest with | [] => p.working_dir | d :: _ => d }
    else
      match makeCCap line with
      | some dir =>
        if dir ≠ "." then
          some { p with dir_stack := parsePath dir :: p.dir_stack,
                        working_dir := parsePath dir }
        else some p
      | none => none

/-! ### Parser::process_nested_commands -/

/-- `Parser::process_nested_commands`.  `exec cmd = some out` models a
subprocess that spawned and exited zero with stdout `out` (the source
then trims the output); `none` models the `_` arm: warn and `break`,
returning the text accumulated so far.  `fuel` bounds the `while` loop,
which the source does not. -/
def processNested (exec : String → Option String) : Nat → String → String
  | 0, s => s
  | fuel + 1, s =>
    match findNestedS s with
    | none => s
    | some (whole, grp) =>
      match exec grp with
      | some out => processNested exec fuel ⟨replaceAllL whole.data (trimL out.data) s.data⟩
      | none => s

/-! ### Path relativization inside process_compile_command -/

/-- The component-alignment fallback: the first index `i` into the file's
components such that from `i` on they start with some (non-empty) suffix
`wd.drop j`, `j < wd.length`, of the working directory's components —
the double loop over `i` and `j` in the source. -/
def firstAlign (fp wd : Path) : Option Nat :=
  (List.range fp.length).find?
    (fun i => (List.range wd.length).any (fun j => List.isPrefixOf (wd.drop j) (fp.drop i)))

/-- The `// Convert absolute path to relative path if needed` block:
absolute extracted paths are prefix-stripped against the working
directory, falling back to the component-alignment search; anything else
(including every relative path) is returned unchanged. -/
def relativizeFile (wd : Path) (file : String) : String :=
  if isAbsStr file then
    let fp := parsePath file
    match stripPre fp wd with
    | some rel => render rel
    | none =>
      match firstAlign fp wd with
      | some i => render (fp.drop i)
      | none => file
  else file

/-- The `// Make file path in arguments relative if needed` block: find
the first `-c` argument; when an argument follows it and is absolute,
prefix-strip it against the working directory (no fallback); otherwise
leave the argument list unchanged. -/
def dashCRel (wd : Path) (args : List String) : List String :=
  match args.findIdx? (fun a => a = "-c") with
  | none => args
  | some k =>
    if k + 1 < args.length then
      let t := args.getD (k + 1) ""
      if isAbsStr t then
        match stripPre (parsePath t) wd with
        | some rel => args.set (k + 1) (render rel)
        | none => args
      else args
    else args

/-! ### Parser::process_compile_command -/

/-- The record literal built at the end of `process_compile_command`
(lines 321–335 of parser.rs): exactly one of `command` (the argument
list joined with single spaces) and `arguments` (the list itself) is
populated, selected by `command_style`. -/
def mkRecord (cfg : Config) (wd : Path) (file : String) (finalArgs : List String) :
    CompileCommand :=
  { directory := render wd
    file := file
    command := if cfg.command_style then some (String.intercalate " " finalArgs) else none
    arguments := if cfg.command_style then none else some finalArgs
    output := none }

/-- The `// Check exclusion` test: only the optional compiled first
exclusion pattern is consulted. -/
def excludedBy (p : Parser) (file : String) : Bool :=
  match p.exclude_is_match with
  | some ex => ex file
  | none => false

/-- `Parser::process_compile_command`.  `which` models `which::which`
(already rendered to a string), `fsExists` models `Path::exists`. -/
def processCompileCommand (which : String → Option String) (fsExists : Path → Bool)
    (cfg : Config) (p : Parser) (command : String) : Option CompileCommand :=
  let args := splitWsS command
  match args.findIdx? (fun a => p.compile_is_match a) with
  | none => none
  | some compileIdx =>
    let arguments := args.drop compileIdx
    match p.file_cap command with
    | none => none
    | some rawFile =>
      let file := relativizeFile p.working_dir rawFile
      let finalArgs0 :=
        if cfg.full_path then
          match arguments with
          | [] => []
          | a0 :: rest =>
            match which a0 with
            | some fp => fp :: rest
            | none => a0 :: rest
        else arguments
      let finalArgs1 := dashCRel p.working_dir finalArgs0
      if excludedBy p file then none
      else if !cfg.no_strict && !fsExists (joinPath p.working_dir (parsePath file)) then none
      else some (mkRecord cfg p.working_dir file (finalArgs1 ++ cfg.macros))

/-! ### Parser::parse_line -/

/-- The `for cmd in self.split_commands(&line)` loop: a `cd` sub-command
updates the working directory in place (no stack change) and produces
nothing; otherwise a sub-command matching the compile regex may
contribute a record. -/
def parseCmds (which : String → Option String) (fsExists : Path → Bool) (cfg : Config)
    (p : Parser) : List String → Parser × List CompileCommand
  | [] => (p, [])
  | cmd :: rest =>
    match cdCap cmd with
    | some dir =>
      parseCmds which fsExists cfg
        { p with working_dir := joinPath p.working_dir (parsePath dir) } rest
    | none =>
      if p.compile_is_match cmd then
        match processCompileCommand which fsExists cfg p cmd with
        | some c =>
          let r := parseCmds which fsExists cfg p rest
          (r.1, c :: r.2)
        | none => parseCmds which fsExists cfg p rest
      else parseCmds which fsExists cfg p rest

/-- `Parser::parse_line`: trim; drop empty and `checking …` lines; let
`update_working_dir` consume directory lines; require a compile-regex
match; resolve back-tick substitutions; unescape quotes; then fold the
sub-command loop. -/
def parseLine (exec : String → Option String) (fuel : Nat) (which : String → Option String)
    (fsExists : Path → Bool) (cfg : Config) (p : Parser) (rawLine : String) :
    Parser × List CompileCommand :=
  let line := trimS rawLine
  if line = "" || checkingIsMatch line then (p, [])
  else
    match updateWorkingDir p line with
    | some p2 => (p2, [])
    | none =>
      if !p.compile_is_match line then (p, [])
      else
        let line2 := processNested exec fuel line
        let line3 : String := ⟨replaceAllL [bslash, dquote] [dquote] line2.data⟩
        parseCmds which fsExists cfg p (splitCommands line3)

/-- `Parser::parse_file` minus the I/O: fold `parse_line` over the lines
in order, concatenating the records. -/
def parseLines (exec : String → Option String) (fuel : Nat) (which : String → Option String)
    (fsExists : Path → Bool) (cfg : Config) (p : Parser) :
    List String → Parser × List CompileCommand
  | [] => (p, [])
  | l :: rest =>
    let r1 := parseLine exec fuel which fsExists cfg p l
    let r2 := parseLines exec fuel which fsExists cfg r1.1 rest
    (r2.1, r1.2 ++ r2.2)

/-- The ParserState invariant of the spec: the directory stack is
non-empty and its head is the current working directory. -/
def invariant (p : Parser) : Prop :=
  p.dir_stack ≠ [] ∧ p.dir_stack.head? = some p.working_dir

instance (p : Parser) : Decidable (invariant p) := by
  unfold invariant; infer_instance

/-! ### Concrete instances used by witnesses and counterexamples

The user-configurable regexes are oracle-modelled; the concrete instances
below stand for patterns a caller could configure: a compile pattern that
matches by substring (e.g. the literal pattern `gcc`), and a
file-extraction pattern capturing the word after a ` -c ` flag
(`\s-c\s(\S+)`-style).  The compilation oracle flags any pattern
containing `(` as syntactically invalid. -/

/-- Group-1 capture of a `\s-c\s(\S+)`-style file pattern: the first
whitespace-delimited word after the first occurrence of ` -c `. -/
def demoFileCap (s : String) : Option String :=
  match findSub s.data " -c ".data with
  | none => none
  | some i =>
    match (s.data.drop (i + 4)).takeWhile (fun c => !c.isWhitespace) with
    | [] => none
    | tok => some ⟨tok⟩

/-- Demo regex-compilation oracle: patterns containing `(` are invalid;
valid ones match by literal substring and capture via `demoFileCap`. -/
def demoRC (pat : String) : Option RE :=
  if containsSub pat.data ['('] then none
  else some { isMatch := fun s => containsSub s.data pat.data, cap1 := demoFileCap }

/-- A parser value used only as the impossible fallback when destructuring
a `Parser.new` result known to be `.ok`. -/
def dummyParser : Parser :=
  { compile_is_match := fun _ => false, file_cap := fun _ => none,
    exclude_is_match := none, dir_stack := [], working_dir := [] }

def newOr (r : Except CompileDbError Parser) : Parser :=
  match r with
  | .ok p => p
  | .error _ => dummyParser

/-- A subprocess oracle for which every spawn fails. -/
def noExec : String → Option String := fun _ => none

/-- A `which::which` oracle that never resolves. -/
def noWhich : String → Option String := fun _ => none

/-- A filesystem oracle on which every path exists. -/
def allExists : Path → Bool := fun _ => true

/-- Baseline configuration: build dir `/tmp/wd`, no exclusions, strict
checking disabled, no macros, arguments-style output. -/
def cfgA : Config :=
  { build_dir := ["/", "tmp", "wd"], exclude_patterns := [], no_strict := true,
    macros := [], command_style := false, full_path := false,
    regex_compile := "gcc", regex_file := "dc" }

/-- The parser freshly constructed from `cfgA`. -/
def parserA : Parser := newOr (Parser.new demoRC [] cfgA)

/-! ## Shared inversion lemmas -/

/-- Every record returned by `process_compile_command` is the final
record literal, built for this parser's working directory, and its file
passed the (first-pattern) exclusion test. -/
theorem pcc_inv (which : String → Option String) (fsExists : Path → Bool) (cfg : Config)
    (p : Parser) (cmd : String) (r : CompileCommand)
    (h : processCompileCommand which fsExists cfg p cmd = some r) :
    ∃ file finalArgs, r = mkRecord cfg p.working_dir file finalArgs ∧
      excludedBy p file = false := by
  unfold processCompileCommand at h
  rcases hidx : List.findIdx? (fun a => p.compile_is_match a) (splitWsS cmd) with _ | compileIdx
  · simp [hidx] at h
  · simp only [hidx] at h
    rcases hfc : p.file_cap cmd with _ | rawFile
    · simp [hfc] at h
    · simp only [hfc] at h
      cases hex : excludedBy p (relativizeFile p.working_dir rawFile)
      · simp only [hex, Bool.false_eq_true, if_false, if_neg] at h
        split at h
        · exact absurd h (by simp)
        · exact ⟨_, _, (Option.some.inj h).symm, hex⟩
      · simp [hex] at h

/-- Every record produced by the sub-command loop comes from a
`process_compile_command` call on a parser with the same compiled
regexes (only the working directory may differ, via `cd`). -/
theorem parseCmds_mem (which : String → Option String) (fsExists : Path → Bool)
    (cfg : Config) (r : CompileCommand) :
    ∀ (cmds : List String) (p : Parser), r ∈ (parseCmds which fsExists cfg p cmds).2 →
      ∃ q cmd, q.exclude_is_match = p.exclude_is_match ∧
        processCompileCommand which fsExists cfg q cmd = some r := by
  intro cmds
  induction cmds with
  | nil => intro p hr; simp [parseCmds] at hr
  | cons cmd rest ih =>
    intro p hr
    unfold parseCmds at hr
    split at hr
    · obtain ⟨q, c2, hqe, hqc⟩ := ih _ hr
      exact ⟨q, c2, hqe, hqc⟩
    · split at hr
      · split at hr
        · rename_i c hc
          rcases List.mem_cons.mp hr with rfl | hr2
          · exact ⟨p, cmd, rfl, hc⟩
          · exact ih _ hr2
        · exact ih _ hr
      · exact ih _ hr

/-- Every record returned by `parse_line` comes from a
`process_compile_command` call on a parser with the same compiled
regexes. -/
theorem parseLine_mem (exec : String → Option String) (fuel : Nat)
    (which : String → Option String) (fsExists : Path → Bool) (cfg : Config)
    (p : Parser) (rawLine : String) (r : CompileCommand)
    (hr : r ∈ (parseLine exec fuel which fsExists cfg p rawLine).2) :
    ∃ q cmd, q.exclude_is_match = p.exclude_is_match ∧
      processCompileCommand which fsExists cfg q cmd = some r := by
  unfold parseLine at hr
  simp only [] at hr
  split at hr
  · simp at hr
  · split at hr
    · simp at hr
    · split at hr
      · simp at hr
      · exact parseCmds_mem which fsExists cfg r _ p hr

/-- `update_working_dir` only touches the directory stack and the
working directory, never the compiled regexes. -/
theorem updateWorkingDir_fields (p p2 : Parser) (line : String)
    (h : updateWorkingDir p line = some p2) :
    p2.exclude_is_match = p.exclude_is_match := by
  unfold updateWorkingDir at h
  split at h
  · obtain rfl := Option.some.inj h; rfl
  · split at h
    · split at h
      · exact absurd h (by simp)
      · obtain rfl := Option.some.inj h; rfl
    · split at h
      · split at h
        · obtain rfl := Option.some.inj h; rfl
        · obtain rfl := Option.some.inj h; rfl
      · exact absurd h (by simp)

/-- The sub-command loop only ever rewrites the working directory. -/
theorem parseCmds_fst_fields (which : String → Option String) (fsExists : Path → Bool)
    (cfg : Config) :
    ∀ (cmds : List String) (p : Parser),
      (parseCmds which fsExists cfg p cmds).1.exclude_is_match = p.exclude_is_match := by
  intro cmds
  induction cmds with
  | nil => intro p; rfl
  | cons cmd rest ih =>
    intro p
    unfold parseCmds
    split
    · exact ih _
    · split
      · split
        · exact ih _
        · exact ih _
      · exact ih _

/-- `parse_line` never changes the compiled regexes of the parser. -/
theorem parseLine_fst_fields (exec : String → Option String) (fuel : Nat)
    (which : String → Option String) (fsExists : Path → Bool) (cfg : Config)
    (p : Parser) (rawLine : String) :
    (parseLine exec fuel which fsExists cfg p rawLine).1.exclude_is_match =
      p.exclude_is_match := by
  unfold parseLine
  simp only []
  split
  · rfl
  · split
    · rename_i p2 h2
      exact updateWorkingDir_fields p p2 _ h2
    · split
      · rfl
      · exact parseCmds_fst_fields which fsExists cfg _ p

/-- Every record produced across a sequence of lines comes from a
`process_compile_command` call on a parser with the same compiled
regexes as the starting parser. -/
theorem parseLines_mem (exec : String → Option String) (fuel : Nat)
    (which : String → Option String) (fsExists : Path → Bool) (cfg : Config)
    (r : CompileCommand) :
    ∀ (lines : List String) (p : Parser),
      r ∈ (parseLines exec fuel which fsExists cfg p lines).2 →
      ∃ q cmd, q.exclude_is_match = p.exclude_is_match ∧
        processCompileCommand which fsExists cfg q cmd = some r := by
  intro lines
  induction lines with
  | nil => intro p hr; simp [parseLines] at hr
  | cons l rest ih =>
    intro p hr
    unfold parseLines at hr
    rcases List.mem_append.mp hr with h1 | h2
    · exact parseLine_mem exec fuel which fsExists cfg p l r h1
    · obtain ⟨q, cmd, hqe, hqc⟩ := ih _ h2
      exact ⟨q, cmd, hqe.trans (parseLine_fst_fields exec fuel which fsExists cfg p l), hqc⟩

/-! ## Claim C9 -/

/-- Claim C9: every emitted `CompileCommand` has exactly one of
`command` and `arguments` present: with command-style output configured,
`command` is the space-joined argument list and `arguments` is absent;
otherwise `arguments` is the list and `command` is absent. -/
theorem c9_command_arguments_exclusive (exec : String → Option String) (fuel : Nat)
    (which : String → Option String) (fsExists : Path → Bool) (cfg : Config)
    (p : Parser) (rawLine : String) (r : CompileCommand)
    (hr : r ∈ (parseLine exec fuel which fsExists cfg p rawLine).2) :
    ((r.command.isSome = true ∧ r.arguments = none) ∨
      (r.command = none ∧ r.arguments.isSome = true)) ∧
    (cfg.command_style = true →
      (∃ args, r.command = some (String.intercalate " " args)) ∧ r.arguments = none) ∧
    (cfg.command_style = false → r.command = none ∧ ∃ args, r.arguments = some args) := by
  obtain ⟨q, cmd, -, hq⟩ := parseLine_mem exec fuel which fsExists cfg p rawLine r hr
  obtain ⟨file, finalArgs, rfl, -⟩ := pcc_inv which fsExists cfg q cmd r hq
  cases hcs : cfg.command_style with
  | true => exact ⟨Or.inl ⟨by simp [mkRecord, hcs], by simp [mkRecord, hcs]⟩,
      fun _ => ⟨⟨finalArgs, by simp [mkRecord, hcs]⟩, by simp [mkRecord, hcs]⟩,
      fun hf => absurd hf (by simp)⟩
  | false => exact ⟨Or.inr ⟨by simp [mkRecord, hcs], by simp [mkRecord, hcs]⟩,
      fun ht => absurd ht (by simp),
      fun _ => ⟨by simp [mkRecord, hcs], ⟨finalArgs, by simp [mkRecord, hcs]⟩⟩⟩

/-- The record emitted for the simple line of the C9 witness. -/
def recA : CompileCommand :=
  { directory := "/tmp/wd", file := "test.c", command := none,
    arguments := some ["gcc", "-c", "test.c", "-o", "test.o"], output := none }

/-- Witness for C9 at a concrete parse. -/
theorem c9_witness :
    cfgA.command_style = false ∧ recA.command = none ∧ ∃ args, recA.arguments = some args :=
  ⟨rfl, (c9_command_arguments_exclusive noExec 5 noWhich allExists cfgA parserA
      "gcc -c test.c -o test.o" recA (by decide)).2.2 rfl⟩

/-! ## Claim C3 -/

/-- Does the string match the (demo-compiled) pattern `pat`?  Used to
exhibit that a counterexample file really matches a configured exclusion
pattern. -/
def patMatches (pat s : String) : Bool :=
  match demoRC pat with
  | some re => re.isMatch s
  | none => false

/-- `cfgA` with two exclusion patterns configured. -/
def cfgC3 : Config := { cfgA with exclude_patterns := ["aaa", "bbb"] }

/-- The parser freshly constructed from `cfgC3`. -/
def parserC3 : Parser := newOr (Parser.new demoRC [] cfgC3)

/-- The record emitted for the C3 counterexample line. -/
def recC3 : CompileCommand :=
  { directory := "/tmp/wd", file := "bbb.c", command := none,
    arguments := some ["gcc", "-c", "bbb.c", "-o", "bbb.o"], output := none }

/-- Counterexample to claim C3 as stated: with the exclusion list
`["aaa", "bbb"]` configured, a record whose file matches the second
pattern is still emitted — only the first pattern is enforced. -/
theorem c3_counterexample :
    cfgC3.exclude_patterns = ["aaa", "bbb"] ∧
    patMatches "bbb" "bbb.c" = true ∧
    recC3.file = "bbb.c" ∧
    recC3 ∈ (parseLines noExec 5 noWhich allExists cfgC3 parserC3
      ["gcc -c bbb.c -o bbb.o"]).2 :=
  ⟨rfl, by decide, rfl, by decide⟩

/-- Claim C3 (amended): exclusion is complete for the FIRST configured
pattern only — whenever the parser holds a compiled exclusion matcher
(built from the first pattern), no record whose relativized file path
matches it is ever emitted, for every parsed input; patterns after the
first are ignored. -/
theorem c3_first_exclusion_complete (exec : String → Option String) (fuel : Nat)
    (which : String → Option String) (fsExists : Path → Bool) (cfg : Config)
    (p : Parser) (lines : List String) (r : CompileCommand) (ex : String → Bool)
    (hex : p.exclude_is_match = some ex)
    (hr : r ∈ (parseLines exec fuel which fsExists cfg p lines).2) :
    ex r.file = false := by
  obtain ⟨q, cmd, hqe, hqc⟩ := parseLines_mem exec fuel which fsExists cfg r lines p hr
  obtain ⟨file, finalArgs, rfl, hfex⟩ := pcc_inv which fsExists cfg q cmd _ hqc
  unfold excludedBy at hfex
  rw [hqe, hex] at hfex
  simpa [mkRecord] using hfex

/-- Witness for (amended) C3: the first pattern `aaa` of `cfgC3` does
not match the emitted file `bbb.c`, as the theorem demands. -/
theorem c3_witness :
    (fun s => containsSub s.data "aaa".data) (recC3.file) = false :=
  c3_first_exclusion_complete noExec 5 noWhich allExists cfgC3 parserC3
    ["gcc -c bbb.c -o bbb.o"] recC3 _ rfl (by decide)

/-! ## Claim C6 -/

/-- Claim C6: normalization of the extracted source path.  A relative
path is emitted unchanged.  An absolute path whose components have the
working directory's components as an exact leading run is emitted with
that run stripped; otherwise, if some tail of the path's components
starts with a (non-empty) suffix of the working directory's components,
the output is the components from such an alignment point onward; with
no alignment, the path is emitted unchanged. -/
theorem c6_path_normalization (wd : Path) (file : String) :
    (isAbsStr file = false → relativizeFile wd file = file) ∧
    (isAbsStr file = true →
      (wd <+: parsePath file →
        relativizeFile wd file = render ((parsePath file).drop wd.length)) ∧
      (¬ wd <+: parsePath file →
        ((∃ i, i < (parsePath file).length ∧
            ∃ j, j < wd.length ∧ wd.drop j <+: (parsePath file).drop i) →
          ∃ i, relativizeFile wd file = render ((parsePath file).drop i) ∧
            i < (parsePath file).length ∧
            ∃ j, j < wd.length ∧ wd.drop j <+: (parsePath file).drop i) ∧
        ((¬ ∃ i, i < (parsePath file).length ∧
            ∃ j, j < wd.length ∧ wd.drop j <+: (parsePath file).drop i) →
          relativizeFile wd file = file))) := by
  refine ⟨fun habs => by simp [relativizeFile, habs], fun habs => ⟨?_, fun hpre => ⟨?_, ?_⟩⟩⟩
  · intro hpre
    have hb : List.isPrefixOf wd (parsePath file) = true := List.isPrefixOf_iff_prefix.mpr hpre
    simp [relativizeFile, habs, stripPre, hb]
  · intro ⟨i, hi, j, hj, halign⟩
    have hb : List.isPrefixOf wd (parsePath file) = false := by
      cases hc : List.isPrefixOf wd (parsePath file)
      · rfl
      · exact absurd (List.isPrefixOf_iff_prefix.mp hc) hpre
    have hsome : ((List.range (parsePath file).length).find?
        (fun i => (List.range wd.length).any
          (fun j => List.isPrefixOf (wd.drop j) ((parsePath file).drop i)))).isSome := by
      rcases hfa : (List.range (parsePath file).length).find?
          (fun i => (List.range wd.length).any
            (fun j => List.isPrefixOf (wd.drop j) ((parsePath file).drop i))) with _ | k
      · exfalso
        have := List.find?_eq_none.mp hfa i (List.mem_range.mpr hi)
        exact this (List.any_eq_true.mpr
          ⟨j, List.mem_range.mpr hj, List.isPrefixOf_iff_prefix.mpr halign⟩)
      · rfl
    obtain ⟨k, hk⟩ := Option.isSome_iff_exists.mp hsome
    have hkpred := List.find?_some hk
    have hkmem := List.mem_of_find?_eq_some hk
    obtain ⟨j2, hj2mem, hj2⟩ := List.any_eq_true.mp hkpred
    refine ⟨k, ?_, List.mem_range.mp hkmem, j2, List.mem_range.mp hj2mem,
      List.isPrefixOf_iff_prefix.mp hj2⟩
    simp [relativizeFile, habs, stripPre, hb, firstAlign, hk]
  · intro hno
    have hb : List.isPrefixOf wd (parsePath file) = false := by
      cases hc : List.isPrefixOf wd (parsePath file)
      · rfl
      · exact absurd (List.isPrefixOf_iff_prefix.mp hc) hpre
    have hnone : firstAlign (parsePath file) wd = none := by
      rw [firstAlign, List.find?_eq_none]
      intro i hi hcon
      obtain ⟨j, hjm, hjp⟩ := List.any_eq_true.mp hcon
      exact hno ⟨i, List.mem_range.mp hi, j, List.mem_range.mp hjm,
        List.isPrefixOf_iff_prefix.mp hjp⟩
    simp [relativizeFile, habs, stripPre, hb, hnone]

/-- Witness for C6: the three absolute cases (exact prefix, suffix
alignment, no alignment) and the relative case, at concrete inputs. -/
theorem c6_witness :
    relativizeFile ["/", "tmp", "wd"] "/tmp/wd/a/b.c" = "a/b.c" ∧
    (∃ i, relativizeFile ["/", "home", "proj"] "/mnt/proj/a.c" =
        render ((parsePath "/mnt/proj/a.c").drop i) ∧
      i < (parsePath "/mnt/proj/a.c").length ∧
      ∃ j, j < (["/", "home", "proj"] : Path).length ∧
        (["/", "home", "proj"] : Path).drop j <+: (parsePath "/mnt/proj/a.c").drop i) ∧
    relativizeFile ["/", "home", "proj"] "/opt/other/a.c" = "/opt/other/a.c" ∧
    relativizeFile ["/", "x"] "rel/a.c" = "rel/a.c" := by
  refine ⟨?_, ?_, ?_, ?_⟩
  · exact (((c6_path_normalization ["/", "tmp", "wd"] "/tmp/wd/a/b.c").2
      (by decide)).1 (by decide)).trans (by decide)
  · exact (((c6_path_normalization ["/", "home", "proj"] "/mnt/proj/a.c").2
      (by decide)).2 (by decide)).1 ⟨2, by decide, 2, by decide, by decide⟩
  · exact (((c6_path_normalization ["/", "home", "proj"] "/opt/other/a.c").2
      (by decide)).2 (by decide)).2 (by decide)
  · exact (c6_path_normalization ["/", "x"] "rel/a.c").1 (by decide)

/-! ## Directory-tracking helper lemmas (claims C1 and C4) -/

/-- On an `Entering directory` line, `update_working_dir` pushes the
captured directory and makes it current. -/
theorem updateWorkingDir_enter (p : Parser) (line d : String)
    (hd : enterCap line = some d) :
    updateWorkingDir p line =
      some { p with dir_stack := parsePath d :: p.dir_stack,
                    working_dir := parsePath d } := by
  unfold updateWorkingDir; rw [hd]

/-- On a `Leaving directory` line with a singleton stack,
`update_working_dir` pops to the empty stack and leaves the working
directory untouched. -/
theorem updateWorkingDir_leave_last (p : Parser) (line : String) (h0 : Path)
    (he : enterCap line = none) (hl : leaveIsMatch line = true)
    (hs : p.dir_stack = [h0]) :
    updateWorkingDir p line = some { p with dir_stack := [] } := by
  unfold updateWorkingDir
  simp only [he, hl, if_true]
  split
  · rename_i hnil
    rw [hs] at hnil
    exact absurd hnil (by simp)
  · rename_i a rest har
    obtain ⟨rfl, rfl⟩ := List.cons.inj (hs.symm.trans har)
    rfl

/-- On a `Leaving directory` line with at least two stacked directories,
`update_working_dir` pops and makes the new top current. -/
theorem updateWorkingDir_leave_cons (p : Parser) (line : String) (h0 d2 : Path)
    (t2 : List Path)
    (he : enterCap line = none) (hl : leaveIsMatch line = true)
    (hs : p.dir_stack = h0 :: d2 :: t2) :
    updateWorkingDir p line =
      some { p with dir_stack := d2 :: t2, working_dir := d2 } := by
  unfold updateWorkingDir
  simp only [he, hl, if_true]
  split
  · rename_i hnil
    rw [hs] at hnil
    exact absurd hnil (by simp)
  · rename_i a rest har
    obtain ⟨rfl, rfl⟩ := List.cons.inj (hs.symm.trans har)
    rfl

/-- On a `Leaving directory` line with an EMPTY stack,
`update_working_dir` does nothing and returns `false`: the line is NOT
consumed and falls through to ordinary classification. -/
theorem updateWorkingDir_leave_empty (p : Parser) (line : String)
    (he : enterCap line = none) (hl : leaveIsMatch line = true)
    (hs : p.dir_stack = []) :
    updateWorkingDir p line = none := by
  unfold updateWorkingDir; rw [he]; simp [hl, hs]

/-- A non-empty, non-`checking` line consumed by `update_working_dir`
makes `parse_line` return the updated parser and no records. -/
theorem parseLine_consumed (exec : String → Option String) (fuel : Nat)
    (which : String → Option String) (fsExists : Path → Bool) (cfg : Config)
    (p p2 : Parser) (l : String)
    (h1 : trimS l ≠ "") (h2 : checkingIsMatch (trimS l) = false)
    (h3 : updateWorkingDir p (trimS l) = some p2) :
    parseLine exec fuel which fsExists cfg p l = (p2, []) := by
  unfold parseLine; simp [h1, h2, h3]

/-! ## Claim C4 -/

/-- State after feeding a fresh parser one `Leaving` line: the singleton
stack is popped to empty. -/
def pC4a : Parser :=
  (parseLine noExec 5 noWhich allExists cfgA parserA "make[1]: Leaving directory '/q'").1

/-- … then an `Entering /b` line: stack `[/b]`. -/
def pC4b : Parser :=
  (parseLine noExec 5 noWhich allExists cfgA pC4a "make[1]: Entering directory '/b'").1

/-- … then the matching `Leaving` line: stack empty again, but the
working directory stays `/b`. -/
def pC4c : Parser :=
  (parseLine noExec 5 noWhich allExists cfgA pC4b "make[1]: Leaving directory '/b'").1

/-- Counterexample to claim C4 as stated, in a reachable parser state:
(a) an `Entering /b` line followed by its matching `Leaving` line does
NOT restore the pre-push working directory `/tmp/wd` — it stays `/b`,
because the stack below the push was empty; and (b) a `Leaving` line
arriving on an empty stack is NOT simply consumed: it falls through to
ordinary processing and (for a pathological directory text) even
produces a record. -/
theorem c4_counterexample :
    pC4a.working_dir = ["/", "tmp", "wd"] ∧ pC4a.dir_stack = [] ∧
    pC4c.working_dir = ["/", "b"] ∧
    pC4c.working_dir ≠ pC4a.working_dir ∧
    (parseLine noExec 5 noWhich allExists cfgA pC4c
      "make: Leaving directory 'gcc -c a.c -o a.o'").2.length = 1 := by
  refine ⟨by decide, by decide, by decide, by decide, by decide⟩

/-- Claim C4 (amended): an `Entering D` banner followed immediately by a
matching `Leaving` banner restores both the working directory and the
stack, PROVIDED the stack was non-empty with head equal to the working
directory (the parser invariant) before the push; and a `Leaving` banner
on an empty stack leaves the tracker state unchanged but is NOT consumed
— `update_working_dir` reports the line unhandled, so it falls through
to ordinary line classification (and can even yield records, as the
counterexample shows). -/
theorem c4_enter_leave_restores (exec : String → Option String) (fuel : Nat)
    (which : String → Option String) (fsExists : Path → Bool) (cfg : Config)
    (p : Parser) (lineE lineL : String)
    (hne : p.dir_stack ≠ []) (hInv : p.dir_stack.head? = some p.working_dir)
    (hE1 : trimS lineE ≠ "") (hE2 : checkingIsMatch (trimS lineE) = false)
    (hE3 : (enterCap (trimS lineE)).isSome = true)
    (hL1 : trimS lineL ≠ "") (hL2 : checkingIsMatch (trimS lineL) = false)
    (hL3 : enterCap (trimS lineL) = none) (hL4 : leaveIsMatch (trimS lineL) = true) :
    (parseLine exec fuel which fsExists cfg
        (parseLine exec fuel which fsExists cfg p lineE).1 lineL).1.working_dir =
      p.working_dir ∧
    (parseLine exec fuel which fsExists cfg
        (parseLine exec fuel which fsExists cfg p lineE).1 lineL).1.dir_stack =
      p.dir_stack := by
  obtain ⟨dE, hdE⟩ := Option.isSome_iff_exists.mp hE3
  obtain ⟨h0, t0, hstack⟩ : ∃ h0 t0, p.dir_stack = h0 :: t0 := by
    rcases hs : p.dir_stack with _ | ⟨a, b⟩
    · exact absurd hs hne
    · exact ⟨a, b, rfl⟩
  have hwd : h0 = p.working_dir := by
    rw [hstack] at hInv; simpa using hInv
  have hp1 : (parseLine exec fuel which fsExists cfg p lineE).1 =
      { p with dir_stack := parsePath dE :: p.dir_stack, working_dir := parsePath dE } := by
    rw [parseLine_consumed exec fuel which fsExists cfg p _ lineE hE1 hE2
      (updateWorkingDir_enter p _ dE hdE)]
  rw [hp1, parseLine_consumed exec fuel which fsExists cfg _ _ lineL hL1 hL2
    (updateWorkingDir_leave_cons _ _ (parsePath dE) h0 t0 hL3 hL4 (by rw [hstack]))]
  exact ⟨hwd, hstack.symm⟩

/-- Witness for (amended) C4: a fresh parser, enter `/b`, leave: the
working directory and stack return to their initial values. -/
theorem c4_witness :
    (parseLine noExec 5 noWhich allExists cfgA
        (parseLine noExec 5 noWhich allExists cfgA parserA
          "make[1]: Entering directory '/b'").1
        "make[1]: Leaving directory '/b'").1.working_dir = parserA.working_dir ∧
    (parseLine noExec 5 noWhich allExists cfgA
        (parseLine noExec 5 noWhich allExists cfgA parserA
          "make[1]: Entering directory '/b'").1
        "make[1]: Leaving directory '/b'").1.dir_stack = parserA.dir_stack :=
  c4_enter_leave_restores noExec 5 noWhich allExists cfgA parserA
    "make[1]: Entering directory '/b'" "make[1]: Leaving directory '/b'"
    (by decide) (by decide) (by decide) (by decide) (by decide)
    (by decide) (by decide) (by decide) (by decide)

/-! ## Claim C1 -/

/-- Counterexample to claim C1 as stated: the invariant holds for a
freshly constructed parser but is destroyed by a single `Leaving`
banner line, which pops the singleton stack to empty. -/
theorem c1_counterexample :
    invariant parserA ∧
    ¬ invariant (parseLine noExec 5 noWhich allExists cfgA parserA
        "make[1]: Leaving directory '/q'").1 := by
  refine ⟨by decide, by decide⟩

/-- `update_working_dir` preserves the invariant, except for a `Leaving`
line arriving on a singleton stack. -/
theorem updateWorkingDir_invariant (p p2 : Parser) (line : String)
    (hInv : invariant p)
    (hleave : enterCap line = none → leaveIsMatch line = true → 2 ≤ p.dir_stack.length)
    (h : updateWorkingDir p line = some p2) : invariant p2 := by
  unfold updateWorkingDir at h
  split at h
  · obtain rfl := Option.some.inj h
    exact ⟨by simp, by simp⟩
  · rename_i henter
    split at h
    · rename_i hleaveT
      split at h
      · exact absurd h (by simp)
      · rename_i h0 t hs
        obtain rfl := Option.some.inj h
        have h2 := hleave henter hleaveT
        rw [hs] at h2
        rcases t with _ | ⟨d, t2⟩
        · simp at h2
        · exact ⟨by simp, by simp⟩
    · split at h
      · split at h
        · obtain rfl := Option.some.inj h
          exact ⟨by simp, by simp⟩
        · obtain rfl := Option.some.inj h
          exact hInv
      · exact absurd h (by simp)

/-- Without `cd` sub-commands the sub-command loop never moves the
working directory. -/
theorem parseCmds_no_cd (which : String → Option String) (fsExists : Path → Bool)
    (cfg : Config) :
    ∀ (cmds : List String) (p : Parser), (∀ cmd ∈ cmds, cdCap cmd = none) →
      (parseCmds which fsExists cfg p cmds).1 = p := by
  intro cmds
  induction cmds with
  | nil => intro p _; rfl
  | cons cmd rest ih =>
    intro p hcd
    unfold parseCmds
    split
    · rename_i dir hdir
      rw [hcd cmd (List.mem_cons_self cmd rest)] at hdir
      exact absurd hdir (by simp)
    · split
      · split
        · exact ih _ (fun c hc => hcd c (List.mem_cons_of_mem _ hc))
        · exact ih _ (fun c hc => hcd c (List.mem_cons_of_mem _ hc))
      · exact ih _ (fun c hc => hcd c (List.mem_cons_of_mem _ hc))

/-- Claim C1 (amended): `parse_line` preserves the invariant (stack
non-empty, head = working directory) provided the line is not a
`Leaving` banner consumed while the stack holds fewer than two entries,
and no `cd` sub-command occurs among the split sub-commands of the
processed line.  A `Leaving` banner on a singleton stack empties the
stack, and a `cd` sub-command rewrites the working directory without
touching the stack; each breaks the invariant (counterexample). -/
theorem c1_invariant_preserved (exec : String → Option String) (fuel : Nat)
    (which : String → Option String) (fsExists : Path → Bool) (cfg : Config)
    (p : Parser) (line : String)
    (hInv : invariant p)
    (hleave : enterCap (trimS line) = none → leaveIsMatch (trimS line) = true →
      2 ≤ p.dir_stack.length)
    (hcd : ∀ cmd ∈ splitCommands ⟨replaceAllL [bslash, dquote] [dquote]
        (processNested exec fuel (trimS line)).data⟩, cdCap cmd = none) :
    invariant (parseLine exec fuel which fsExists cfg p line).1 := by
  unfold parseLine
  simp only []
  split
  · exact hInv
  · split
    · rename_i p2 h2
      exact updateWorkingDir_invariant p p2 _ hInv hleave h2
    · split
      · exact hInv
      · rw [parseCmds_no_cd which fsExists cfg _ p hcd]
        exact hInv

/-- Witness for (amended) C1: an `Entering` banner preserves the
invariant on a fresh parser. -/
theorem c1_witness :
    invariant (parseLine noExec 5 noWhich allExists cfgA parserA
      "make[1]: Entering directory '/b'").1 :=
  c1_invariant_preserved noExec 5 noWhich allExists cfgA parserA
    "make[1]: Entering directory '/b'" (by decide) (by decide) (by decide)

/-! ## Claim C7 -/

/-- `cfgA` with a second, syntactically invalid exclusion pattern. -/
def cfgC7 : Config := { cfgA with exclude_patterns := ["ok", "("] }

/-- Counterexample to claim C7 as stated: with the invalid pattern `(`
appearing second in the exclusion list, `Parser::new` succeeds — the
invalid pattern is silently ignored, not rejected. -/
theorem c7_counterexample :
    demoRC "(" = none ∧
    cfgC7.exclude_patterns = ["ok", "("] ∧
    ∃ p, Parser.new demoRC [] cfgC7 = .ok p :=
  ⟨rfl, rfl, ⟨newOr (Parser.new demoRC [] cfgC7), rfl⟩⟩

/-- Claim C7 (amended): `Parser::new` fails exactly when the compile
pattern, the file pattern, or — when the exclusion list is non-empty —
its FIRST pattern fails to compile; exclusion patterns after the first
are never compiled, hence never rejected. -/
theorem c7_fail_fast_first_exclusion (rc : String → Option RE) (cwd : Path)
    (config : Config) :
    (∃ e, Parser.new rc cwd config = .error e) ↔
      (rc config.regex_compile = none ∨ rc config.regex_file = none ∨
        ∃ pat rest, config.exclude_patterns = pat :: rest ∧ rc pat = none) := by
  unfold Parser.new
  rcases h1 : rc config.regex_compile with _ | cre <;> simp only [h1]
  · simp
  · rcases h2 : rc config.regex_file with _ | fre <;> simp only [h2]
    · simp
    · rcases h3 : config.exclude_patterns with _ | ⟨pat, rest⟩ <;> simp only [h3]
      · simp
      · rcases h4 : rc pat with _ | ere <;> simp only [h4]
        · constructor
          · intro _
            exact Or.inr (Or.inr ⟨pat, rest, rfl, h4⟩)
          · intro _
            exact ⟨CompileDbError.InvalidCommand pat, rfl⟩
        · constructor
          · intro ⟨e, he⟩
            exact absurd he (by simp)
          · rintro (hc | hc | ⟨pat2, rest2, hp, hcp⟩)
            · exact absurd hc (by simp)
            · exact absurd hc (by simp)
            · obtain ⟨rfl, -⟩ := List.cons.inj hp
              exact absurd hcp (by simp [h4])

/-- Witness for (amended) C7: an invalid compile pattern is rejected at
construction. -/
theorem c7_witness :
    ∃ e, Parser.new demoRC [] { cfgA with regex_compile := "(bad" } = .error e :=
  (c7_fail_fast_first_exclusion demoRC [] _).mpr (Or.inl rfl)

/-! ## Claim C5 -/

/-- `cfgA` with build dir `/home/proj`. -/
def cfgC5 : Config := { cfgA with build_dir := ["/", "home", "proj"] }

/-- The parser freshly constructed from `cfgC5`. -/
def parserC5 : Parser := newOr (Parser.new demoRC [] cfgC5)

/-- The record emitted for the C5 counterexample line. -/
def recC5 : CompileCommand :=
  { directory := "/home/proj", file := "proj/a.c", command := none,
    arguments := some ["gcc", "-c", "/mnt/proj/a.c", "-o", "a.o"], output := none }

/-- Counterexample to claim C5 as stated: the `file` field is relativized
through the common-suffix fallback to `proj/a.c`, but the absolute
argument after `-c` is left unchanged — it is NOT relativized the same
way as the `file` field. -/
theorem c5_counterexample :
    (parseLines noExec 5 noWhich allExists cfgC5 parserC5
      ["gcc -c /mnt/proj/a.c -o a.o"]).2 = [recC5] ∧
    recC5.file = relativizeFile ["/", "home", "proj"] "/mnt/proj/a.c" ∧
    recC5.arguments = some ["gcc", "-c", "/mnt/proj/a.c", "-o", "a.o"] ∧
    relativizeFile ["/", "home", "proj"] "/mnt/proj/a.c" = "proj/a.c" ∧
    ("/mnt/proj/a.c" : String) ≠ "proj/a.c" := by
  refine ⟨by decide, by decide, rfl, by decide, by decide⟩

/-- Claim C5 (amended): the argument after the first `-c` flag is
relativized by exact prefix-stripping ONLY — it is either replaced by
the prefix-stripped path (when absolute and the working directory is an
exact componentwise prefix) or left completely unchanged; the
common-suffix fallback of step 4 is never applied to it, and no other
argument is touched. -/
theorem c5_dashc_strip_only (wd : Path) (args : List String) (k : Nat)
    (hk : args.findIdx? (fun a => a = "-c") = some k) (hlen : k + 1 < args.length) :
    (dashCRel wd args).length = args.length ∧
    (∀ i, i ≠ k + 1 → (dashCRel wd args)[i]? = args[i]?) ∧
    (∀ rel, isAbsStr (args.getD (k + 1) "") = true →
      stripPre (parsePath (args.getD (k + 1) "")) wd = some rel →
      (dashCRel wd args)[k + 1]? = some (render rel)) ∧
    ((isAbsStr (args.getD (k + 1) "") = false ∨
        stripPre (parsePath (args.getD (k + 1) "")) wd = none) →
      (dashCRel wd args)[k + 1]? = args[k + 1]?) := by
  unfold dashCRel
  rw [hk]
  simp only [hlen, if_true]
  rcases habs : isAbsStr (args.getD (k + 1) "") with _ | _
  · simp [habs]
  · simp only [habs, if_true]
    rcases hsp : stripPre (parsePath (args.getD (k + 1) "")) wd with _ | rel
    · simp [hsp]
    · simp only [hsp]
      refine ⟨by simp, fun i hi => List.getElem?_set_ne (fun hc => hi hc.symm),
        fun rel2 _ h2 => ?_, fun hor => ?_⟩
      · obtain rfl := Option.some.inj h2
        exact List.getElem?_set_eq_of_lt _ hlen
      · rcases hor with h | h
        · exact absurd h (by simp)
        · exact absurd h (by simp)

/-- Witness for (amended) C5: a concrete prefix-strippable `-c`
argument really is replaced by the stripped path, with the other
entries and the length untouched. -/
theorem c5_witness :
    (dashCRel ["/", "x"] ["gcc", "-c", "/x/a.c", "-o", "a.o"])[2]? = some "a.c" ∧
    (dashCRel ["/", "x"] ["gcc", "-c", "/x/a.c", "-o", "a.o"])[0]? = some "gcc" ∧
    (dashCRel ["/", "x"] ["gcc", "-c", "/x/a.c", "-o", "a.o"]).length = 5 := by
  have h := c5_dashc_strip_only ["/", "x"] ["gcc", "-c", "/x/a.c", "-o", "a.o"] 1
    (by decide) (by decide)
  refine ⟨?_, (h.2.1 0 (by decide)).trans (by decide), h.1.trans (by decide)⟩
  exact (h.2.2.1 ["a.c"] (by decide) (by decide)).trans (by decide)

/-! ## Claim C2 -/

/-- Counterexample to claim C2 as stated: the line contains a back-tick
substitution whose subprocess fails (`noExec`), yet `parse_line` still
returns a record for the line — processing does not stop. -/
theorem c2_counterexample :
    noExec "false" = none ∧
    findNestedS "gcc -c test.c -o test.o && echo `false`" = some ("`false`", "false") ∧
    (parseLine noExec 5 noWhich allExists cfgA parserA
      "gcc -c test.c -o test.o && echo `false`").2 = [recA] := by
  refine ⟨rfl, by decide, by decide⟩

/-- Claim C2 (amended): when the subprocess of the next back-tick
substitution fails to spawn or exits non-zero, only the substitution
loop stops — the line text is returned unchanged (the back-tick span is
left verbatim), the failure is merely logged, and the line then
continues through normal processing (which may still produce records, as
the counterexample shows); the overall parse is never aborted. -/
theorem c2_substitution_failure_keeps_line (exec : String → Option String) (fuel : Nat)
    (s whole grp : String) (h1 : findNestedS s = some (whole, grp))
    (h2 : exec grp = none) :
    processNested exec fuel s = s := by
  cases fuel with
  | zero => rfl
  | succ n => unfold processNested; simp only [h1, h2]

/-- Witness for (amended) C2. -/
theorem c2_witness :
    processNested noExec 7 "gcc -c `false` x.c" = "gcc -c `false` x.c" :=
  c2_substitution_failure_keeps_line noExec 7 _ "`false`" "false" (by decide) rfl

/-! ## Claim C8 — support -/

/-- A "plain" token character: not whitespace, not a shell operator
character, not a backtick, not a backslash. -/
def plainChar (c : Char) : Bool :=
  !c.isWhitespace && c != ';' && c != '&' && c != '|' && c != backtick && c != bslash

/-- A plain token: non-empty and made of plain characters. -/
def plainTok (s : String) : Prop :=
  s.data ≠ [] ∧ ∀ c ∈ s.data, plainChar c = true

instance (s : String) : Decidable (plainTok s) := by
  unfold plainTok; infer_instance

/-- The simple compiler line of claim C8. -/
def mkSimpleLine (cc fil out : String) : String :=
  cc ++ " -c " ++ fil ++ " -o " ++ out

theorem plainChar_spec (c : Char) (h : plainChar c = true) :
    c.isWhitespace = false ∧ c ≠ ';' ∧ c ≠ '&' ∧ c ≠ '|' ∧ c ≠ backtick ∧ c ≠ bslash := by
  simp only [plainChar, Bool.and_eq_true, Bool.not_eq_true', bne_iff_ne] at h
  exact ⟨h.1.1.1.1.1, h.1.1.1.1.2, h.1.1.1.2, h.1.1.2, h.1.2, h.2⟩

theorem mkSimpleLine_data (cc fil out : String) :
    (mkSimpleLine cc fil out).data =
      cc.data ++ ' ' :: '-' :: 'c' :: ' ' ::
        (fil.data ++ ' ' :: '-' :: 'o' :: ' ' :: out.data) := by
  show (cc ++ " -c " ++ fil ++ " -o " ++ out).data = _
  rw [String.data_append, String.data_append, String.data_append, String.data_append]
  have h1 : " -c ".data = [' ', '-', 'c', ' '] := rfl
  have h2 : " -o ".data = [' ', '-', 'o', ' '] := rfl
  rw [h1, h2]
  simp [List.append_assoc]

/-- Characters of the simple line are token characters or the literal
separator characters. -/
theorem simpleLine_chars (cc fil out : String) (c : Char)
    (h : c ∈ (mkSimpleLine cc fil out).data) :
    c ∈ cc.data ∨ c ∈ fil.data ∨ c ∈ out.data ∨ c = ' ' ∨ c = '-' ∨ c = 'c' ∨ c = 'o' := by
  rw [mkSimpleLine_data] at h
  simp only [List.mem_append, List.mem_cons] at h
  tauto

/-- `dropWhile` is the identity when the head is not skipped. -/
theorem dropWhile_head_false (p : Char → Bool) (c : Char) (l : List Char)
    (hc : p c = false) : List.dropWhile p (c :: l) = c :: l := by
  simp [List.dropWhile_cons, hc]

/-- `trim` is the identity on a list with non-whitespace first and last
characters. -/
theorem trimL_eq_self (c d : Char) (m : List Char)
    (hc : c.isWhitespace = false) (hd : d.isWhitespace = false) :
    trimL (c :: (m ++ [d])) = c :: (m ++ [d]) := by
  unfold trimL
  rw [dropWhile_head_false _ _ _ hc]
  have h1 : (c :: (m ++ [d])).reverse = d :: (m.reverse ++ [c]) := by simp
  rw [h1, dropWhile_head_false _ _ _ hd]
  simp

theorem splitWsAux_cons_nonws (c : Char) (l acc : List Char)
    (hc : c.isWhitespace = false) :
    splitWsAux (c :: l) acc = splitWsAux l (c :: acc) := by
  conv_lhs => unfold splitWsAux
  rw [hc]
  simp

theorem splitWsAux_cons_ws (c : Char) (l acc : List Char)
    (hc : c.isWhitespace = true) (hacc : acc ≠ []) :
    splitWsAux (c :: l) acc = acc.reverse :: splitWsAux l [] := by
  conv_lhs => unfold splitWsAux
  rw [hc]
  simp [hacc]

/-- Splitting a word followed by a space: the word is cut off. -/
theorem splitWsAux_sep (b : List Char) :
    ∀ (a acc : List Char), a ≠ [] → (∀ c ∈ a, c.isWhitespace = false) →
      splitWsAux (a ++ ' ' :: b) acc = (acc.reverse ++ a) :: splitWsAux b [] := by
  intro a
  induction a with
  | nil => intro acc h _; exact absurd rfl h
  | cons c a' ih =>
    intro acc _ hplain
    have hc : c.isWhitespace = false := hplain c (List.mem_cons_self c a')
    rcases a' with _ | ⟨c2, a''⟩
    · show splitWsAux (c :: ' ' :: b) acc = _
      rw [splitWsAux_cons_nonws c _ acc hc,
        splitWsAux_cons_ws ' ' b (c :: acc) (by decide) (by simp)]
      simp
    · show splitWsAux (c :: ((c2 :: a'') ++ ' ' :: b)) acc = _
      rw [splitWsAux_cons_nonws c _ acc hc,
        ih (c :: acc) (by simp) (fun d hd => hplain d (List.mem_cons_of_mem _ hd))]
      simp

/-- Splitting a trailing word. -/
theorem splitWsAux_last :
    ∀ (a acc : List Char), a ≠ [] → (∀ c ∈ a, c.isWhitespace = false) →
      splitWsAux a acc = [acc.reverse ++ a] := by
  intro a
  induction a with
  | nil => intro acc h _; exact absurd rfl h
  | cons c a' ih =>
    intro acc _ hplain
    have hc : c.isWhitespace = false := hplain c (List.mem_cons_self c a')
    rcases a' with _ | ⟨c2, a''⟩
    · show splitWsAux [c] acc = _
      rw [splitWsAux_cons_nonws c _ acc hc]
      show splitWsAux [] (c :: acc) = _
      unfold splitWsAux
      simp
    · show splitWsAux (c :: c2 :: a'') acc = _
      rw [splitWsAux_cons_nonws c _ acc hc,
        ih (c :: acc) (by simp) (fun d hd => hplain d (List.mem_cons_of_mem _ hd))]
      simp

/-- Tokenizing the simple line gives exactly its five tokens. -/
theorem splitWs_line (cc fil out : String)
    (hcc : plainTok cc) (hfil : plainTok fil) (hout : plainTok out) :
    splitWsS (mkSimpleLine cc fil out) = [cc, "-c", fil, "-o", out] := by
  unfold splitWsS splitWsL
  rw [mkSimpleLine_data]
  have nws : ∀ (s : String), plainTok s → ∀ c ∈ s.data, c.isWhitespace = false :=
    fun s hs c hc => (plainChar_spec c (hs.2 c hc)).1
  rw [splitWsAux_sep _ cc.data [] hcc.1 (nws cc hcc)]
  have h1 : ('-' :: 'c' :: ' ' :: (fil.data ++ ' ' :: '-' :: 'o' :: ' ' :: out.data)) =
      ['-', 'c'] ++ ' ' :: (fil.data ++ ' ' :: '-' :: 'o' :: ' ' :: out.data) := rfl
  rw [h1, splitWsAux_sep _ ['-', 'c'] [] (by simp) (by decide)]
  rw [splitWsAux_sep _ fil.data [] hfil.1 (nws fil hfil)]
  have h2 : ('-' :: 'o' :: ' ' :: out.data) = ['-', 'o'] ++ ' ' :: out.data := rfl
  rw [h2, splitWsAux_sep _ ['-', 'o'] [] (by simp) (by decide)]
  rw [splitWsAux_last out.data [] hout.1 (nws out hout)]
  rfl

/-- `splitSep` does not cut a list free of separator characters. -/
theorem splitSep_no_sep :
    ∀ (l : List Char), (∀ c ∈ l, c ≠ ';' ∧ c ≠ '&' ∧ c ≠ '|') → splitSep l = [l]
  | [], _ => rfl
  | c :: rest, h => by
    have hrest := splitSep_no_sep rest (fun d hd => h d (List.mem_cons_of_mem c hd))
    obtain ⟨h1, h2, h3⟩ := h c (List.mem_cons_self c rest)
    unfold splitSep
    split
    · rename_i heq; simp at heq
    · rename_i heq; exact absurd (List.cons.inj heq).1 h1
    · rename_i heq; exact absurd (List.cons.inj heq).1 h2
    · rename_i heq; exact absurd (List.cons.inj heq).1 h3
    · rename_i heq
      obtain ⟨rfl, rfl⟩ := List.cons.inj heq
      rw [hrest]

/-- `findNested` finds nothing in a list without backticks. -/
theorem findNested_no_backtick :
    ∀ (l : List Char), (∀ c ∈ l, c ≠ backtick) → findNested l = none
  | [], _ => rfl
  | c :: rest, h => by
    have hc := h c (List.mem_cons_self c rest)
    unfold findNested
    rw [if_neg hc]
    exact findNested_no_backtick rest (fun d hd => h d (List.mem_cons_of_mem c hd))

/-- `processNested` is the identity on a line without backticks. -/
theorem processNested_no_backtick (exec : String → Option String) (fuel : Nat)
    (s : String) (h : ∀ c ∈ s.data, c ≠ backtick) :
    processNested exec fuel s = s := by
  cases fuel with
  | zero => rfl
  | succ n =>
    unfold processNested
    simp [findNestedS, findNested_no_backtick s.data h]

/-- `replaceAllGo` is the identity when the head of the (non-empty)
pattern does not occur in the text. -/
theorem replaceAllGo_no_head (pat rep : List Char) (c0 : Char) (hpat : pat.head? = some c0) :
    ∀ (n : Nat) (l : List Char), (∀ c ∈ l, c ≠ c0) → replaceAllGo pat rep n l = l := by
  intro n
  induction n with
  | zero => intro l _; rfl
  | succ m ih =>
    intro l hl
    rcases l with _ | ⟨c, rest⟩
    · rfl
    · have hpre : pat.isPrefixOf (c :: rest) = false := by
        rcases hp : pat with _ | ⟨p0, pt⟩
        · rw [hp] at hpat; exact absurd hpat (by simp)
        · have hp0 : p0 = c0 := by rw [hp] at hpat; simpa using hpat
          have hcne : c ≠ c0 := hl c (List.mem_cons_self c rest)
          have hb : (p0 == c) = false :=
            beq_eq_false_iff_ne.mpr (fun h => hcne (h.symm.trans hp0))
          simp [List.isPrefixOf, hb]
      conv_lhs => unfold replaceAllGo
      rw [if_neg (by simp [hpre])]
      rw [ih rest (fun d hd => hl d (List.mem_cons_of_mem c hd))]

/-- A prefix of a concatenation either sits inside the first part or
swallows the first part whole. -/
theorem prefix_append_cases (pat a b : List Char) (h : pat <+: a ++ b) :
    pat <+: a ∨ (a <+: pat ∧ pat.drop a.length <+: b) := by
  rcases Nat.le_total pat.length a.length with hle | hle
  · exact Or.inl (List.prefix_of_prefix_length_le h (List.prefix_append a b) hle)
  · right
    refine ⟨List.prefix_of_prefix_length_le (List.prefix_append a b) h hle, ?_⟩
    obtain ⟨t, ht⟩ := h
    refine ⟨t, ?_⟩
    have hda := congrArg (List.drop a.length) ht
    rw [List.drop_append_of_le_length hle, List.drop_left] at hda
    exact hda

/-- A whitespace-free pattern that is a prefix of `a ++ ' ' :: b` (with
`a` whitespace-free) is already a prefix of `a`. -/
theorem noWs_pat_left (pat a b : List Char)
    (hpat : ∀ c ∈ pat, c.isWhitespace = false)
    (h : pat <+: a ++ ' ' :: b) : pat <+: a := by
  rcases prefix_append_cases pat a (' ' :: b) h with h1 | ⟨h2, h3⟩
  · exact h1
  · rcases hd : pat.drop a.length with _ | ⟨x, xs⟩
    · have hlen : pat.length ≤ a.length := List.drop_eq_nil_iff.mp hd
      have : a = pat := List.IsPrefix.eq_of_length_le h2 hlen
      exact this ▸ List.prefix_refl pat
    · rw [hd] at h3
      have hx : x = ' ' := (List.cons_prefix_cons.mp h3).1
      have hxmem : x ∈ pat := List.mem_of_mem_drop (hd ▸ List.mem_cons_self x xs)
      have := hpat x hxmem
      rw [hx] at this
      exact absurd this (by decide)

/-- The `checking whether` probe regex never matches a simple compiler
line of plain tokens. -/
theorem checking_simple (cc fil out : String) (hcc : plainTok cc) :
    checkingIsMatch (mkSimpleLine cc fil out) = false := by
  obtain ⟨c0, cc', hccd⟩ : ∃ c0 cc', cc.data = c0 :: cc' := by
    rcases hd : cc.data with _ | ⟨a, b⟩
    · exact absurd hd hcc.1
    · exact ⟨a, b, rfl⟩
  have hc0 : plainChar c0 = true := hcc.2 c0 (by rw [hccd]; exact List.mem_cons_self _ _)
  have hc0w : c0.isWhitespace = false := (plainChar_spec c0 hc0).1
  unfold checkingIsMatch
  rw [mkSimpleLine_data, hccd]
  simp only [List.cons_append, hc0w, Bool.false_eq_true, if_false]
  have hnp : "checking whether ".data.isPrefixOf
      (c0 :: (cc' ++ ' ' :: '-' :: 'c' :: ' ' :: (fil.data ++ ' ' :: '-' :: 'o' :: ' ' ::
        out.data))) = false := by
    rw [← List.cons_append, ← hccd]
    cases hb : "checking whether ".data.isPrefixOf
        (cc.data ++ ' ' :: '-' :: 'c' :: ' ' :: (fil.data ++ ' ' :: '-' :: 'o' :: ' ' ::
          out.data))
    · rfl
    · exfalso
      have hpre := List.isPrefixOf_iff_prefix.mp hb
      rcases prefix_append_cases _ _ _ hpre with h1 | ⟨h2, h3⟩
      · have : ' ' ∈ cc.data := h1.subset (by decide)
        have := (plainChar_spec ' ' (hcc.2 ' ' this)).1
        exact absurd this (by decide)
      · by_cases hlen : 9 ≤ cc.data.length
        · obtain ⟨t, ht⟩ := h2
          have h8lt : (8 : Nat) < cc.data.length := hlen
          have q1 : (cc.data ++ t)[8]? = some ' ' := by rw [ht]; decide
          have q2 : (cc.data ++ t)[8]? = cc.data[8]? := by
            rw [List.getElem?_append, if_pos h8lt]
          have hmem : ' ' ∈ cc.data :=
            List.getElem?_mem (q2 ▸ q1)
          have := (plainChar_spec ' ' (hcc.2 ' ' hmem)).1
          exact absurd this (by decide)
        · push_neg at hlen
          have hlt : cc.data.length < "checking whether ".data.length := by
            have h17 : ("checking whether ".data.length) = 17 := by decide
            omega
          rcases hdd : "checking whether ".data.drop cc.data.length with _ | ⟨x, xs⟩
          · have := List.drop_eq_nil_iff.mp hdd
            omega
          · rw [hdd] at h3
            obtain ⟨hx, hxs⟩ := List.cons_prefix_cons.mp h3
            have hq : "checking whether ".data[cc.data.length]? = some ' ' := by
              rw [← List.head?_drop, hdd, hx]
              rfl
            have h8eq : cc.data.length = 8 := by
              have hdec : ∀ n, n < 9 →
                  ("checking whether ".data[n]? = some ' ' → n = 8) := by decide
              exact hdec cc.data.length (by omega) hq
            rw [h8eq] at hdd
            have : "checking whether ".data.drop 8 = ' ' :: 'w' :: "hether ".data := by
              decide
            rw [this] at hdd
            obtain ⟨-, hxs2⟩ := List.cons.inj hdd
            rw [← hxs2] at hxs
            exact absurd (List.cons_prefix_cons.mp hxs).1 (by decide)
  rw [hnp]
  rfl

/-- The `make -C` regex never matches a simple compiler line whose first
token does not start with a make tool name. -/
theorem makeC_simple (cc fil out : String) (hcc : plainTok cc)
    (hm1 : ¬ "mingw32-make".data <+: cc.data)
    (hm2 : ¬ "gmake".data <+: cc.data)
    (hm3 : ¬ "make".data <+: cc.data) :
    makeCCap (mkSimpleLine cc fil out) = none := by
  obtain ⟨c0, cc', hccd⟩ : ∃ c0 cc', cc.data = c0 :: cc' := by
    rcases hd : cc.data with _ | ⟨a, b⟩
    · exact absurd hd hcc.1
    · exact ⟨a, b, rfl⟩
  have hc0 : plainChar c0 = true := hcc.2 c0 (by rw [hccd]; exact List.mem_cons_self _ _)
  have hc0w : c0.isWhitespace = false := (plainChar_spec c0 hc0).1
  have key : ∀ (pat : List Char), (∀ c ∈ pat, c.isWhitespace = false) →
      ¬ pat <+: cc.data →
      pat.isPrefixOf ((mkSimpleLine cc fil out).data) = false := by
    intro pat hpat hnp
    cases hb : pat.isPrefixOf ((mkSimpleLine cc fil out).data)
    · rfl
    · exfalso
      have h := List.isPrefixOf_iff_prefix.mp hb
      rw [mkSimpleLine_data] at h
      exact hnp (noWs_pat_left pat cc.data _ hpat h)
  unfold makeCCap
  have hld : (mkSimpleLine cc fil out).data.dropWhile Char.isWhitespace =
      (mkSimpleLine cc fil out).data := by
    rw [mkSimpleLine_data, hccd]
    exact dropWhile_head_false _ _ _ hc0w
  rw [hld]
  simp only [key "mingw32-make".data (by decide) hm1,
    key "gmake".data (by decide) hm2,
    key "make".data (by decide) hm3]
  rfl

/-- The `cd` regex never matches a simple compiler line whose first
token is not the literal `cd`. -/
theorem cdCap_simple (cc fil out : String) (hcc : plainTok cc) (hne : cc ≠ "cd") :
    cdCap (mkSimpleLine cc fil out) = none := by
  obtain ⟨c0, cc', hccd⟩ : ∃ c0 cc', cc.data = c0 :: cc' := by
    rcases hd : cc.data with _ | ⟨a, b⟩
    · exact absurd hd hcc.1
    · exact ⟨a, b, rfl⟩
  unfold cdCap
  rw [mkSimpleLine_data, hccd]
  rcases cc' with _ | ⟨c1, cc''⟩
  · -- single-character first token: second char of the line is ' '
    simp only [List.cons_append, List.nil_append]
    split
    · rename_i heq
      obtain ⟨-, heq2⟩ := List.cons.inj heq
      exact absurd (List.cons.inj heq2).1 (by decide)
    · rfl
  · simp only [List.cons_append]
    split
    · rename_i c rest heq
      obtain ⟨h0, heq2⟩ := List.cons.inj heq
      obtain ⟨h1, heq3⟩ := List.cons.inj heq2
      rcases cc'' with _ | ⟨c2, cc3⟩
      · -- cc.data = ['c', 'd'], i.e. cc = "cd"
        exfalso
        apply hne
        have : cc.data = "cd".data := by rw [hccd, h0, h1]
        have hmk : cc = ⟨cc.data⟩ := rfl
        rw [hmk, this]
      · -- third character of the line is a plain token character
        obtain ⟨h2, -⟩ := List.cons.inj heq3
        have hp : plainChar c2 = true := hcc.2 c2 (by rw [hccd]; simp)
        have hcw : c.isWhitespace = false := by
          rw [← h2]
          exact (plainChar_spec c2 hp).1
        rw [hcw]
        rfl
    · rfl

/-- `update_working_dir` consumes nothing when none of the three
directory regexes fires. -/
theorem updateWorkingDir_none (p : Parser) (line : String)
    (he : enterCap line = none) (hl : leaveIsMatch line = false)
    (hm : makeCCap line = none) :
    updateWorkingDir p line = none := by
  unfold updateWorkingDir
  rw [he, hl, hm]
  rfl

/-- `dashCRel` never changes the length of the argument list. -/
theorem dashCRel_length (wd : Path) (args : List String) :
    (dashCRel wd args).length = args.length := by
  unfold dashCRel
  split
  · rfl
  · split
    · simp only []
      split
      · split
        · simp
        · rfl
      · rfl
    · rfl

/-- `trim` is the identity when head and last characters are not
whitespace (head?/reverse formulation). -/
theorem trimL_eq_self_of (l : List Char)
    (h1 : ∃ c r, l = c :: r ∧ c.isWhitespace = false)
    (h2 : ∃ c r, l.reverse = c :: r ∧ c.isWhitespace = false) : trimL l = l := by
  obtain ⟨c, r, rfl, hc⟩ := h1
  obtain ⟨d, s, hrev, hd⟩ := h2
  unfold trimL
  rw [dropWhile_head_false _ _ _ hc, hrev, dropWhile_head_false _ _ _ hd, ← hrev]
  simp

/-- Every character of the simple line is a plain token character or one
of the four separator characters. -/
theorem simpleLine_plain_or_sep (cc fil out : String)
    (hcc : plainTok cc) (hfil : plainTok fil) (hout : plainTok out) :
    ∀ c ∈ (mkSimpleLine cc fil out).data,
      plainChar c = true ∨ c = ' ' ∨ c = '-' ∨ c = 'c' ∨ c = 'o' := by
  intro c hmem
  rcases simpleLine_chars cc fil out c hmem with h | h | h | h | h | h | h
  · exact Or.inl (hcc.2 c h)
  · exact Or.inl (hfil.2 c h)
  · exact Or.inl (hout.2 c h)
  all_goals tauto

/-- The bundled facts about the text of a simple compiler line that
`parse_line` consults before extraction. -/
theorem simpleLine_facts (cc fil out : String)
    (hcc : plainTok cc) (hfil : plainTok fil) (hout : plainTok out) :
    trimS (mkSimpleLine cc fil out) = mkSimpleLine cc fil out ∧
    mkSimpleLine cc fil out ≠ "" ∧
    splitCommands (mkSimpleLine cc fil out) = [mkSimpleLine cc fil out] ∧
    (∀ c ∈ (mkSimpleLine cc fil out).data, c ≠ backtick) ∧
    replaceAllL [bslash, dquote] [dquote] (mkSimpleLine cc fil out).data =
      (mkSimpleLine cc fil out).data := by
  obtain ⟨c0, cc', hccd⟩ : ∃ c0 cc', cc.data = c0 :: cc' := by
    rcases hd : cc.data with _ | ⟨a, b⟩
    · exact absurd hd hcc.1
    · exact ⟨a, b, rfl⟩
  obtain ⟨os, olast, hod⟩ : ∃ os olast, out.data = os ++ [olast] := by
    rcases List.eq_nil_or_concat out.data with h1 | ⟨m, b, h1⟩
    · exact absurd h1 hout.1
    · exact ⟨m, b, by simpa using h1⟩
  have hc0 : c0.isWhitespace = false :=
    (plainChar_spec c0 (hcc.2 c0 (by rw [hccd]; exact List.mem_cons_self _ _))).1
  have holast : olast.isWhitespace = false :=
    (plainChar_spec olast (hout.2 olast (by rw [hod]; simp))).1
  have hchar := simpleLine_plain_or_sep cc fil out hcc hfil hout
  have hdata : (mkSimpleLine cc fil out).data ≠ [] := by
    rw [mkSimpleLine_data, hccd]
    simp
  have hrevhead : (mkSimpleLine cc fil out).data.reverse.head? = some olast := by
    rw [List.head?_reverse, mkSimpleLine_data]
    rw [List.getLast?_append]
    have : (' ' :: '-' :: 'c' :: ' ' ::
        (fil.data ++ ' ' :: '-' :: 'o' :: ' ' :: out.data)).getLast? = some olast := by
      have h2 : (fil.data ++ ' ' :: '-' :: 'o' :: ' ' :: out.data).getLast? = some olast := by
        rw [List.getLast?_append]
        have h3 : (' ' :: '-' :: 'o' :: ' ' :: out.data).getLast? = some olast := by
          have h4 : (' ' :: '-' :: 'o' :: ' ' :: out.data) =
              ([' ', '-', 'o', ' '] ++ os) ++ [olast] := by rw [hod]; simp
          rw [h4, List.getLast?_concat]
        rw [h3]
        rfl
      have h5 : (' ' :: '-' :: 'c' :: ' ' ::
          (fil.data ++ ' ' :: '-' :: 'o' :: ' ' :: out.data)) =
          [' ', '-', 'c', ' '] ++ (fil.data ++ ' ' :: '-' :: 'o' :: ' ' :: out.data) := rfl
      rw [h5, List.getLast?_append, h2]
      rfl
    rw [this]
    rfl
  have htrimL : trimL (mkSimpleLine cc fil out).data = (mkSimpleLine cc fil out).data := by
    refine trimL_eq_self_of _ ⟨c0, ?_, ?_, hc0⟩ ?_
    · exact cc' ++ ' ' :: '-' :: 'c' :: ' ' :: (fil.data ++ ' ' :: '-' :: 'o' :: ' ' :: out.data)
    · rw [mkSimpleLine_data, hccd]
      rfl
    · rcases hr : (mkSimpleLine cc fil out).data.reverse with _ | ⟨x, r⟩
      · rw [hr] at hrevhead; exact absurd hrevhead (by simp)
      · refine ⟨x, r, rfl, ?_⟩
        rw [hr] at hrevhead
        have : x = olast := by simpa using hrevhead
        rw [this]
        exact holast
  refine ⟨?_, ?_, ?_, ?_, ?_⟩
  · show (⟨trimL (mkSimpleLine cc fil out).data⟩ : String) = _
    rw [htrimL]
  · intro h
    apply hdata
    rw [h]
  · unfold splitCommands
    rw [splitSep_no_sep (mkSimpleLine cc fil out).data ?side]
    case side =>
      intro c hcm
      rcases hchar c hcm with h | h | h | h | h
      · have := plainChar_spec c h
        exact ⟨this.2.1, this.2.2.1, this.2.2.2.1⟩
      all_goals rw [h]; exact ⟨by decide, by decide, by decide⟩
    rw [List.map_cons, List.map_nil, htrimL]
    rw [List.filter_cons_of_pos (by simpa using hdata)]
    rfl
  · intro c hcm
    rcases hchar c hcm with h | h | h | h | h
    · exact (plainChar_spec c h).2.2.2.2.1
    all_goals rw [h]; decide
  · refine replaceAllGo_no_head [bslash, dquote] [dquote] bslash rfl _ _ ?_
    intro c hcm
    rcases hchar c hcm with h | h | h | h | h
    · exact (plainChar_spec c h).2.2.2.2.2
    all_goals rw [h]; decide

/-- `process_compile_command` on the simple line with a benign
configuration. -/
theorem pcc_simple (which : String → Option String) (fsExists : Path → Bool)
    (cfg : Config) (p : Parser) (cc fil out : String)
    (hcc : plainTok cc) (hfil : plainTok fil) (hout : plainTok out)
    (hcompcc : p.compile_is_match cc = true)
    (hfc : p.file_cap (mkSimpleLine cc fil out) = some fil)
    (hnoex : p.exclude_is_match = none) (hstrict : cfg.no_strict = true)
    (hmac : cfg.macros = []) (hfp : cfg.full_path = false) :
    processCompileCommand which fsExists cfg p (mkSimpleLine cc fil out) =
      some (mkRecord cfg p.working_dir (relativizeFile p.working_dir fil)
        (dashCRel p.working_dir [cc, "-c", fil, "-o", out])) := by
  unfold processCompileCommand
  rw [splitWs_line cc fil out hcc hfil hout]
  simp only []
  have hidx : List.findIdx? (fun a => p.compile_is_match a) [cc, "-c", fil, "-o", out] =
      some 0 := by
    rw [List.findIdx?_cons]
    simp [hcompcc]
  have hex : excludedBy p (relativizeFile p.working_dir fil) = false := by
    unfold excludedBy
    rw [hnoex]
  simp only [hidx, hfc, List.drop_zero, hfp, Bool.false_eq_true, if_false, hex,
    hstrict, Bool.not_true, Bool.false_and, hmac, List.append_nil]

/-- The record emitted for the C8 counterexample line. -/
def recC8 : CompileCommand :=
  { directory := "/tmp/wd", file := "a.c", command := none,
    arguments := some ["gcc", "-c", "a.c", "-o", "a.o"], output := none }

/-- Counterexample to claim C8 as stated: for the simple line
`gcc -c /tmp/wd/a.c -o a.o` — where `gcc` matches the compiler pattern
and the extraction pattern captures `/tmp/wd/a.c` — exactly one record
is produced, but its `file` field is the relativized `a.c`, NOT the
captured `<file>` itself. -/
theorem c8_counterexample :
    patMatches "gcc" "gcc" = true ∧
    demoFileCap (mkSimpleLine "gcc" "/tmp/wd/a.c" "a.o") = some "/tmp/wd/a.c" ∧
    (parseLine noExec 5 noWhich allExists cfgA parserA
      (mkSimpleLine "gcc" "/tmp/wd/a.c" "a.o")).2 = [recC8] ∧
    recC8.file ≠ "/tmp/wd/a.c" := by
  refine ⟨by decide, by decide, by decide, by decide⟩

/-- Claim C8 (amended): for every simple single-token compiler line
`<cc> -c <file> -o <out>` of plain tokens (no whitespace, shell
operators, backticks or backslashes inside a token), where `<cc>`
matches the compiler pattern, the extraction pattern captures `<file>`
from the line, and the line is not recognized as a `cd` command, a make
`-C` invocation, a directory banner, or a `checking` probe — with
strict checking off, no macros, no exclusions, full-path resolution off
and arguments-style output — `parse_line` yields exactly one record:
its `file` is the step-4 relativization of `<file>` (equal to `<file>`
itself whenever `<file>` is relative), and its argument list has
exactly as many tokens as the input line. -/
theorem c8_simple_line_one_record (exec : String → Option String) (fuel : Nat)
    (which : String → Option String) (fsExists : Path → Bool) (cfg : Config)
    (p : Parser) (cc fil out : String)
    (hcc : plainTok cc) (hfil : plainTok fil) (hout : plainTok out)
    (hnotcd : cc ≠ "cd")
    (hm1 : ¬ "mingw32-make".data <+: cc.data) (hm2 : ¬ "gmake".data <+: cc.data)
    (hm3 : ¬ "make".data <+: cc.data)
    (hent : enterCap (mkSimpleLine cc fil out) = none)
    (hlv : leaveIsMatch (mkSimpleLine cc fil out) = false)
    (hcompl : p.compile_is_match (mkSimpleLine cc fil out) = true)
    (hcompcc : p.compile_is_match cc = true)
    (hfc : p.file_cap (mkSimpleLine cc fil out) = some fil)
    (hnoex : p.exclude_is_match = none)
    (hstrict : cfg.no_strict = true) (hmac : cfg.macros = [])
    (hfp : cfg.full_path = false) (hcs : cfg.command_style = false) :
    parseLine exec fuel which fsExists cfg p (mkSimpleLine cc fil out) =
      (p, [mkRecord cfg p.working_dir (relativizeFile p.working_dir fil)
            (dashCRel p.working_dir [cc, "-c", fil, "-o", out])]) ∧
    (mkRecord cfg p.working_dir (relativizeFile p.working_dir fil)
        (dashCRel p.working_dir [cc, "-c", fil, "-o", out])).file =
      relativizeFile p.working_dir fil ∧
    (mkRecord cfg p.working_dir (relativizeFile p.working_dir fil)
        (dashCRel p.working_dir [cc, "-c", fil, "-o", out])).arguments =
      some (dashCRel p.working_dir [cc, "-c", fil, "-o", out]) ∧
    (dashCRel p.working_dir [cc, "-c", fil, "-o", out]).length =
      (splitWsS (mkSimpleLine cc fil out)).length ∧
    (isAbsStr fil = false → relativizeFile p.working_dir fil = fil) := by
  obtain ⟨htrim, hne, hsplitc, hnb, hrepl⟩ := simpleLine_facts cc fil out hcc hfil hout
  have hpn : processNested exec fuel (mkSimpleLine cc fil out) = mkSimpleLine cc fil out :=
    processNested_no_backtick exec fuel _ hnb
  have hupd : updateWorkingDir p (mkSimpleLine cc fil out) = none :=
    updateWorkingDir_none p _ hent hlv (makeC_simple cc fil out hcc hm1 hm2 hm3)
  have hchk := checking_simple cc fil out hcc
  have hcd := cdCap_simple cc fil out hcc hnotcd
  have hpcc := pcc_simple which fsExists cfg p cc fil out hcc hfil hout hcompcc hfc
    hnoex hstrict hmac hfp
  refine ⟨?_, rfl, ?_, ?_, ?_⟩
  · unfold parseLine
    simp only []
    rw [htrim]
    have hgate : (decide (mkSimpleLine cc fil out = "") ||
        checkingIsMatch (mkSimpleLine cc fil out)) = false := by
      rw [hchk]
      simp [hne]
    simp only [hgate, Bool.false_eq_true, if_false, hupd, hcompl, Bool.not_true]
    rw [hpn, hrepl]
    have hmk : (⟨(mkSimpleLine cc fil out).data⟩ : String) = mkSimpleLine cc fil out := rfl
    rw [hmk, hsplitc]
    unfold parseCmds
    simp only [hcd, hcompl, if_true, hpcc]
    rfl
  · simp [mkRecord, hcs]
  · rw [dashCRel_length, splitWs_line cc fil out hcc hfil hout]
  · intro h
    simp [relativizeFile, h]

/-- Witness for (amended) C8: the concrete line
`gcc -c test.c -o test.o` on the fresh parser yields exactly the one
expected record with a five-token argument list. -/
theorem c8_witness :
    parseLine noExec 5 noWhich allExists cfgA parserA (mkSimpleLine "gcc" "test.c" "test.o") =
      (parserA, [mkRecord cfgA parserA.working_dir
        (relativizeFile parserA.working_dir "test.c")
        (dashCRel parserA.working_dir ["gcc", "-c", "test.c", "-o", "test.o"])]) ∧
    (dashCRel parserA.working_dir ["gcc", "-c", "test.c", "-o", "test.o"]).length =
      (splitWsS (mkSimpleLine "gcc" "test.c" "test.o")).length :=
  let h := c8_simple_line_one_record noExec 5 noWhich allExists cfgA parserA
    "gcc" "test.c" "test.o" (by decide) (by decide) (by decide) (by decide)
    (by decide) (by decide) (by decide) (by decide) (by decide)
    (by decide) (by decide) (by decide) rfl rfl rfl rfl rfl
  ⟨h.1, h.2.2.2.1⟩

/-! ## Claim C10 -/

/-- Claim C10: `Parser::new` initialises the working directory to the
configured build directory verbatim when that is non-empty, else to the
process current directory, and the directory stack to the single-element
stack holding it. -/
theorem c10_initial_working_dir (rc : String → Option RE) (cwd : Path) (config : Config)
    (p : Parser) (h : Parser.new rc cwd config = .ok p) :
    p.working_dir = (if config.build_dir = [] then cwd else config.build_dir) ∧
    p.dir_stack = [p.working_dir] := by
  unfold Parser.new at h
  rcases h1 : rc config.regex_compile with _ | cre
  · simp [h1] at h
  · simp only [h1] at h
    rcases h2 : rc config.regex_file with _ | fre
    · simp [h2] at h
    · simp only [h2] at h
      rcases h3 : config.exclude_patterns with _ | ⟨pat, rest⟩
      · simp only [h3, Except.ok.injEq] at h
        subst h
        refine ⟨?_, rfl⟩
        by_cases hb : config.build_dir = [] <;> simp [hb]
      · simp only [h3] at h
        rcases h4 : rc pat with _ | ere
        · simp [h4] at h
        · simp only [h4, Except.ok.injEq] at h
          subst h
          refine ⟨?_, rfl⟩
          by_cases hb : config.build_dir = [] <;> simp [hb]

/-- Witness for C10: from the concrete configuration `cfgA` (non-empty
build dir `/tmp/wd`). -/
theorem c10_witness :
    parserA.working_dir = cfgA.build_dir ∧ parserA.dir_stack = [parserA.working_dir] := by
  have h := c10_initial_working_dir demoRC [] cfgA parserA rfl
  exact ⟨by rw [h.1]; decide, h.2⟩

end CompileDb
